import Mathlib

/-!
Verification of the Transmute batch-conversion orchestrator.

This file gives a shallow embedding of the front-end logic of
`src/src/App.tsx`: the file classifier `getFileType`, the batch model
(`FileInfo`, the session `Model`), the `addFiles` handler, the sequential
conversion loop of `handleConvert`, the drag-and-drop listener guard, the
finish-pacing branch, and the `handleDownload` export handler.  The external
conversion engine (`invoke('convert_file', ...)`) is modelled as an explicit
function argument `engine : String → String → Except String String`, and the
dialog results (`save`/`open`) as explicit `Option String` arguments.

String splitting and lowercasing are embedded by structural recursion over
the character list so that all definitions evaluate inside the kernel; on
the inputs involved they agree with JavaScript `String.split` and
`String.toLowerCase`.
-/

namespace Transmute

/-- Split a character list at every character satisfying `p`, like JS
`String.split`: the result always has one more field than there are
separator occurrences (so the empty input yields one empty field). -/
def splitChars (p : Char → Bool) : List Char → List (List Char)
  | [] => [[]]
  | c :: cs =>
    let rest := splitChars p cs
    if p c then [] :: rest
    else
      match rest with
      | [] => [[c]]
      | r :: rs => (c :: r) :: rs

/-- JS `name.split('.')`. -/
def splitDots (s : String) : List String :=
  (splitChars (fun c => c == '.') s.toList).map List.asString

/-- JS `path.split(/[/\\]/)` — split at both slash characters. -/
def splitSlashes (s : String) : List String :=
  (splitChars (fun c => c == '/' || c == '\\') s.toList).map List.asString

/-- JS `String.toLowerCase` (ASCII range, which is all the classifier
compares against). -/
def lowerStr (s : String) : String :=
  (s.toList.map Char.toLower).asString

/-- File categories, from the return type of `getFileType` in App.tsx. -/
inductive FileCategory
  | video
  | image
  | audio
  | unknown
deriving DecidableEq, Repr

/-- Per-file lifecycle status, from `FileInfo.status` in App.tsx. -/
inductive FileStatus
  | pending
  | converting
  | done
  | error
deriving DecidableEq, Repr

/-- Embedding of `getFileType` (App.tsx lines 16-22):
`name.split('.').pop()?.toLowerCase()` looked up in three hard-coded
extension lists.  JS `split` on a string always returns a non-empty array,
so `pop()` is the last dot-separated field (the whole name when there is no
dot), and the `|| ''` fallback never changes it. -/
def getFileType (name : String) : FileCategory :=
  let ext := lowerStr ((splitDots name).getLastD "")
  if ["mp4", "mov", "avi", "mkv", "webm", "ogv", "flv", "wmv", "3gp", "mpg", "vob", "ts", "m2ts"].contains ext then .video
  else if ["png", "jpg", "jpeg", "webp", "gif", "avif", "bmp", "tiff", "ico", "tga", "svg"].contains ext then .image
  else if ["mp3", "wav", "m4a", "ogg", "flac", "aac", "wma", "aiff", "alac", "opus"].contains ext then .audio
  else .unknown

/-- Embedding of `FileInfo` (App.tsx lines 34-40).  The optional `status`
starts at `pending` wherever a `FileInfo` is created, and the optional
`convertedPath` is absent (`none`) until a conversion succeeds. -/
structure FileInfo where
  path : String
  name : String
  type : FileCategory
  status : FileStatus
  convertedPath : Option String
deriving DecidableEq, Repr

instance : Inhabited FileInfo := ⟨⟨"", "", .unknown, .pending, none⟩⟩

/-- Embedding of `AppState` (App.tsx line 32). -/
inductive AppState
  | IDLE
  | SELECTION
  | PROCESSING
  | FINISHED
deriving DecidableEq, Repr

/-- The React component state of `App` (App.tsx lines 102-108): session
state, tracked files, selected target format, error toast, progress bar. -/
structure Model where
  state : AppState
  files : List FileInfo
  format : String
  error : Option String
  progress : Nat
deriving DecidableEq, Repr

/-- Initial `useState` values: `'IDLE'`, `[]`, `'MP4'`, `null`, `0`. -/
def initModel : Model :=
  { state := .IDLE, files := [], format := "MP4", error := none, progress := 0 }

/-- `path.split(/[/\\]/).pop() || 'Unknown File'` (App.tsx line 117);
the `||` fallback fires exactly when the last field is the empty string. -/
def baseName (path : String) : String :=
  let last := (splitSlashes path).getLastD ""
  if last = "" then "Unknown File" else last

/-- One element of the `paths.map` in `addFiles` (App.tsx lines 116-119). -/
def mkFileInfo (path : String) : FileInfo :=
  let name := baseName path
  { path := path, name := name, type := getFileType name
    status := .pending, convertedPath := none }

/-- Embedding of `addFiles` (App.tsx lines 114-133): append the new files to
the previous list; when the previous list was empty, auto-select the format
from the first file's category (`image`→PNG, `audio`→MP3, else MP4); move
the session to `SELECTION`. -/
def addFiles (m : Model) (paths : List String) : Model :=
  if paths.isEmpty then m
  else
    let newFiles := paths.map mkFileInfo
    let combined := m.files ++ newFiles
    let fmt :=
      if m.files.isEmpty then
        match (combined.headD default).type with
        | .image => "PNG"
        | .audio => "MP3"
        | _ => "MP4"
      else m.format
    { m with files := combined, format := fmt, state := .SELECTION }

/-- The body of one iteration of the `for` loop in `handleConvert`
(App.tsx lines 175-188): mark the file `converting`, invoke the engine,
then mark it `done` with the result path, or `error` leaving the stored
`convertedPath` untouched. -/
def convertFileResult (engine : String → String → Except String String)
    (format : String) (f : FileInfo) : FileInfo :=
  let f1 : FileInfo := { f with status := .converting }
  match engine f1.path format with
  | .ok result => { f1 with convertedPath := some result, status := .done }
  | .error _ => { f1 with status := .error }

/-- The sequential conversion loop of `handleConvert` (App.tsx lines
175-188): each file of the batch is attempted in order, one at a time;
a failure on one file never stops the iteration. -/
def runLoop (engine : String → String → Except String String)
    (format : String) : List FileInfo → List FileInfo
  | [] => []
  | f :: rest => convertFileResult engine format f :: runLoop engine format rest

/-- The `Finished` view's "ready to save" count (App.tsx line 368):
`files.filter(f => f.status === 'done').length`. -/
def readySaveCount (files : List FileInfo) : Nat :=
  (files.filter (fun f => f.status == .done)).length

/-- User/system events driving the session, at the granularity the claims
need.  A `convert` run is split into its synchronous start (the
`setState('PROCESSING')` prefix of `handleConvert`, lines 159-164) and its
completion (the loop plus the final `setFiles`/`setState('FINISHED')`,
lines 175-203), so that the `PROCESSING` window during the awaited engine
calls is an observable state.  The engine's per-run behaviour is carried on
the completion event. -/
inductive Event
  | drop (paths : List String)
  | startConvert
  | finishConvert (engine : String → String → Except String String)
  | doReset

/-- One step of the session.

* `drop`: the `tauri://drag-drop` listener (App.tsx lines 151-157) —
  ignored while `PROCESSING`, otherwise `addFiles`.
* `startConvert`: the Convert button, available only in the `SELECTION`
  view (App.tsx line 315); `handleConvert` returns at once on an empty
  batch (line 160), otherwise clears the error, resets progress and enters
  `PROCESSING` (lines 162-164).
* `finishConvert`: the rest of `handleConvert` — run the loop over the
  batch, snap progress to 100 and reach `FINISHED` (on both sides of the
  3-second pacing branch, lines 190-203).
* `doReset`: `reset` (App.tsx lines 143-148), reachable from the Cancel
  button (`SELECTION`) and the Start New button (`FINISHED`); no reset
  control exists while `PROCESSING`. -/
def step (m : Model) (e : Event) : Model :=
  match e with
  | .drop paths => if m.state == .PROCESSING then m else addFiles m paths
  | .startConvert =>
      if m.state == .SELECTION && !m.files.isEmpty then
        { m with state := .PROCESSING, error := none, progress := 0 }
      else m
  | .finishConvert engine =>
      if m.state == .PROCESSING then
        { m with files := runLoop engine m.format m.files
                 progress := 100, state := .FINISHED }
      else m
  | .doReset => if m.state == .PROCESSING then m else initModel

/-- The session state after a list of events, starting from the initial
component state. -/
def reachAfter (events : List Event) : Model :=
  events.foldl step initModel

/-- The delayed `FINISHED` transitions emitted at the end of
`handleConvert` (App.tsx lines 194-203), as (delay in ms, new state) pairs:
below the 3000 ms threshold the state is set immediately, otherwise after a
500 ms `setTimeout`. -/
def finishSchedule (durationMs : Nat) : List (Nat × AppState) :=
  if durationMs < 3000 then [(0, .FINISHED)] else [(500, .FINISHED)]

/-- JS truthiness of an optional string (`undefined` and `''` are falsy),
used by `handleDownload`'s `files[0].convertedPath` checks. -/
def strTruthy : Option String → Bool
  | none => false
  | some s => !s.isEmpty

/-- `` `converted_${name.split('.')[0]}` `` — the stem used for every export
destination is the part of the filename before the FIRST dot
(App.tsx lines 216 and 229). -/
def stemFirst (name : String) : String :=
  (splitDots name).headD ""

/-- The observable outcome of one `handleDownload` call: which dialogs were
opened, the suggested default name of the single-file save dialog (note the
trailing space present in the source template literal), the copy operations
passed to `save_file_locally` as (source, destination) pairs, and the error
toast. -/
structure DownloadOutcome where
  promptedSave : Bool
  promptedDir : Bool
  suggested : Option String
  copies : List (String × String)
  error : Option String
deriving DecidableEq, Repr

/-- Embedding of `handleDownload` (App.tsx lines 211-235).  The two dialog
results are explicit arguments: `saveChoice` is what `save(...)` returns in
the single-file branch, `dirChoice` what `open({directory: true})` returns
in the batch branch; `none` is user cancellation.  The filesystem copy is
modelled as always succeeding, so the `catch` branches are never taken and
no error is produced. -/
def handleDownload (format : String) (files : List FileInfo)
    (saveChoice : Option String) (dirChoice : Option String) : DownloadOutcome :=
  if files.length == 1 && strTruthy (files.headD default).convertedPath then
    let f := files.headD default
    let ext := lowerStr format
    let suggestedName := "converted_" ++ stemFirst f.name ++ "." ++ ext ++ " "
    match saveChoice with
    | some savePath =>
        { promptedSave := true, promptedDir := false
          suggested := some suggestedName
          copies := [(f.convertedPath.getD "", savePath)], error := none }
    | none =>
        { promptedSave := true, promptedDir := false
          suggested := some suggestedName, copies := [], error := none }
  else if files.length > 1 then
    match dirChoice with
    | some dir =>
        { promptedSave := false, promptedDir := true, suggested := none
          copies :=
            (files.filter (fun f => strTruthy f.convertedPath && f.status == .done)).map
              (fun f => (f.convertedPath.getD "",
                dir ++ "/converted_" ++ stemFirst f.name ++ "." ++ lowerStr format))
          error := none }
    | none =>
        { promptedSave := false, promptedDir := true, suggested := none
          copies := [], error := none }
  else
    { promptedSave := false, promptedDir := false, suggested := none
      copies := [], error := none }

/-- A conversion engine that succeeds on every file (used in concrete
session traces). -/
def okEngine : String → String → Except String String := fun _ _ => Except.ok "/tmp/out"

/-- A conversion engine that fails on every file (used in concrete session
traces). -/
def failEngine : String → String → Except String String := fun _ _ => Except.error "boom"

/-! ## Lemmas about the conversion loop -/

theorem runLoop_eq_map (engine : String → String → Except String String)
    (format : String) (files : List FileInfo) :
    runLoop engine format files = files.map (convertFileResult engine format) := by
  induction files with
  | nil => rfl
  | cons f rest ih => simp [runLoop, ih]

theorem convertFileResult_status (engine : String → String → Except String String)
    (format : String) (f : FileInfo) :
    (convertFileResult engine format f).status =
      match engine f.path format with
      | .ok _ => FileStatus.done
      | .error _ => FileStatus.error := by
  cases h : engine f.path format <;> simp [convertFileResult, h]

theorem runLoop_status_mem (engine : String → String → Except String String)
    (format : String) (files : List FileInfo) :
    ∀ g ∈ runLoop engine format files, g.status = .done ∨ g.status = .error := by
  induction files with
  | nil => intro g hg; simp [runLoop] at hg
  | cons f rest ih =>
      intro g hg
      rw [runLoop] at hg
      rcases List.mem_cons.mp hg with hg | hg
      · subst hg
        rw [convertFileResult_status]
        cases engine f.path format <;> simp
      · exact ih g hg

theorem readySaveCount_runLoop (engine : String → String → Except String String)
    (format : String) (files : List FileInfo) :
    readySaveCount (runLoop engine format files) =
      (files.filter (fun f => (engine f.path format).isOk)).length := by
  induction files with
  | nil => rfl
  | cons f rest ih =>
      unfold readySaveCount at ih ⊢
      rw [runLoop, List.filter_cons, List.filter_cons]
      cases h : engine f.path format with
      | ok r =>
          simp [convertFileResult, h, Except.isOk, Except.toBool, ih]
      | error e =>
          simp [convertFileResult, h, Except.isOk, Except.toBool, ih]

/-! ## Claim C1 -/

/-- C1: for every non-empty batch, after the conversion run completes every
tracked file's status is in {done, error} — never left pending or
converting — and the Finished view's "ready to save" count
(`readySaveCount`, App.tsx line 368) equals the number of files with status
done, namely the number of files whose engine invocation succeeded. -/
theorem run_all_attempted_and_count (engine : String → String → Except String String)
    (format : String) (files : List FileInfo) (_hne : files ≠ []) :
    (∀ g ∈ runLoop engine format files, g.status = .done ∨ g.status = .error) ∧
    readySaveCount (runLoop engine format files) =
      (files.filter (fun f => (engine f.path format).isOk)).length :=
  ⟨runLoop_status_mem engine format files, readySaveCount_runLoop engine format files⟩

/-- An engine that succeeds exactly on the source path `"a.png"`. -/
def selEngine : String → String → Except String String :=
  fun p _ => if p == "a.png" then Except.ok "/tmp/a" else Except.error "unsupported"

theorem run_all_attempted_and_count_witness :
    ([mkFileInfo "a.png", mkFileInfo "b.wav"] : List FileInfo) ≠ [] ∧
    ((∀ g ∈ runLoop selEngine "MP4" [mkFileInfo "a.png", mkFileInfo "b.wav"],
        g.status = .done ∨ g.status = .error) ∧
      readySaveCount (runLoop selEngine "MP4" [mkFileInfo "a.png", mkFileInfo "b.wav"]) =
        ([mkFileInfo "a.png", mkFileInfo "b.wav"].filter
          (fun f => (selEngine f.path "MP4").isOk)).length) :=
  ⟨by decide, run_all_attempted_and_count selEngine "MP4" _ (by decide)⟩

/-! ## Claim C2 -/

/-- C2: a conversion-engine failure on one file is caught at the per-file
boundary and never prevents the remaining files from being attempted: the
loop visits the files strictly in batch order, and the i-th output status
is done or error exactly according to the engine's answer for the i-th
input file, independent of every other file's outcome. -/
theorem per_file_failure_isolated (engine : String → String → Except String String)
    (format : String) (files : List FileInfo) :
    (runLoop engine format files).map (fun g => g.status) =
      files.map (fun f =>
        match engine f.path format with
        | .ok _ => FileStatus.done
        | .error _ => FileStatus.error) ∧
    (runLoop engine format files).map (fun g => g.path) = files.map (fun f => f.path) := by
  induction files with
  | nil => exact ⟨rfl, rfl⟩
  | cons f rest ih =>
      refine ⟨?_, ?_⟩
      · rw [runLoop, List.map_cons, List.map_cons, ih.1, convertFileResult_status]
      · rw [runLoop, List.map_cons, List.map_cons, ih.2]
        cases h : engine f.path format <;> simp [convertFileResult, h]

/-! ## Claim C3 -/

/-- The one-sided invariant that does hold at every observable point of the
session: a file with status `done` always carries a result path. -/
def DoneHasPath (m : Model) : Prop :=
  ∀ f ∈ m.files, f.status = .done → f.convertedPath.isSome

theorem runLoop_done_has_path (engine : String → String → Except String String)
    (format : String) (files : List FileInfo) :
    ∀ g ∈ runLoop engine format files, g.status = .done → g.convertedPath.isSome := by
  induction files with
  | nil => intro g hg; simp [runLoop] at hg
  | cons f rest ih =>
      intro g hg hdone
      rw [runLoop] at hg
      rcases List.mem_cons.mp hg with hg | hg
      · subst hg
        cases h : engine f.path format with
        | ok r => simp [convertFileResult, h]
        | error e =>
            rw [convertFileResult_status, h] at hdone
            simp at hdone
      · exact ih g hg hdone

theorem addFiles_done_has_path (m : Model) (paths : List String)
    (h : DoneHasPath m) : DoneHasPath (addFiles m paths) := by
  cases paths with
  | nil => simpa [addFiles] using h
  | cons p ps =>
      intro f hf hdone
      simp only [addFiles, List.isEmpty_cons, Bool.false_eq_true, if_false,
        List.mem_append, List.mem_map] at hf
      rcases hf with hf | ⟨q, _, rfl⟩
      · exact h f hf hdone
      · simp [mkFileInfo] at hdone

theorem step_done_has_path (m : Model) (e : Event) (h : DoneHasPath m) :
    DoneHasPath (step m e) := by
  cases e with
  | drop paths =>
      cases hs : m.state == .PROCESSING
      · simp only [step, hs, Bool.false_eq_true, if_false]
        exact addFiles_done_has_path m paths h
      · simp only [step, hs, if_true]
        exact h
  | startConvert =>
      cases hs : (m.state == .SELECTION && !m.files.isEmpty)
      · simp only [step, hs, Bool.false_eq_true, if_false]
        exact h
      · simp only [step, hs, if_true]
        exact fun f hf => h f hf
  | finishConvert engine =>
      cases hs : m.state == .PROCESSING
      · simp only [step, hs, Bool.false_eq_true, if_false]
        exact h
      · simp only [step, hs, if_true]
        exact fun f hf => runLoop_done_has_path engine m.format m.files f hf
  | doReset =>
      cases hs : m.state == .PROCESSING
      · simp only [step, hs, Bool.false_eq_true, if_false]
        intro f hf
        simp [initModel] at hf
      · simp only [step, hs, if_true]
        exact h

theorem foldl_done_has_path (events : List Event) :
    ∀ m : Model, DoneHasPath m → DoneHasPath (events.foldl step m) := by
  induction events with
  | nil => exact fun m h => h
  | cons e es ih => exact fun m h => ih (step m e) (step_done_has_path m e h)

theorem reachAfter_done_has_path (events : List Event) :
    DoneHasPath (reachAfter events) :=
  foldl_done_has_path events initModel (fun f hf => by simp [initModel] at hf)

/-- The session trace that refutes the unrestricted iff: a file converts
successfully, the finished batch receives a newly dropped file, and a
second run fails on the previously successful file. -/
def staleTrace : List Event :=
  [.drop ["a.png"], .startConvert, .finishConvert okEngine,
   .drop ["b.txt"], .startConvert, .finishConvert failEngine]

/-- C3 counterexample: at the observable point after `staleTrace`, the first
tracked file has status `error` and yet still carries the converted-result
path of its earlier successful run, so "resultPath is present iff status is
done" fails at this session point. -/
theorem resultPath_iff_counterexample :
    ((reachAfter staleTrace).files.getD 0 default).status = .error ∧
    ((reachAfter staleTrace).files.getD 0 default).convertedPath = some "/tmp/out" ∧
    ¬(((reachAfter staleTrace).files.getD 0 default).status = .done ↔
        ((reachAfter staleTrace).files.getD 0 default).convertedPath.isSome) := by
  decide

/-- C3 (amended): at every observable point of the session, every tracked
file with status `done` has a result path; and for a run over files that
carry no result path yet (in particular any batch's first conversion run),
the converse also holds after the run: the result path is present iff the
status is `done`.  The unrestricted iff fails only for a file re-converted
after an earlier success, which keeps its stale path when the new run
errors (`resultPath_iff_counterexample`). -/
theorem resultPath_status_amended :
    (∀ events : List Event, ∀ f ∈ (reachAfter events).files,
        f.status = .done → f.convertedPath.isSome) ∧
    (∀ (engine : String → String → Except String String) (format : String)
        (files : List FileInfo), (∀ f ∈ files, f.convertedPath = none) →
        ∀ g ∈ runLoop engine format files,
          (g.status = .done ↔ g.convertedPath.isSome)) := by
  constructor
  · exact fun events => reachAfter_done_has_path events
  · intro engine format files hnone
    induction files with
    | nil => intro g hg; simp [runLoop] at hg
    | cons f rest ih =>
        intro g hg
        rw [runLoop] at hg
        rcases List.mem_cons.mp hg with hg | hg
        · subst hg
          cases h : engine f.path format with
          | ok r => simp [convertFileResult, h]
          | error e =>
              have hf : f.convertedPath = none := hnone f (List.mem_cons_self f rest)
              simp [convertFileResult, h, hf]
        · exact ih (fun f' hf' => hnone f' (List.mem_cons_of_mem f hf')) g hg

theorem resultPath_status_amended_witness :
    (({ path := "a.png", name := "a.png", type := .image
        status := .done, convertedPath := some "/tmp/out" } : FileInfo).convertedPath.isSome) ∧
    (({ path := "a.png", name := "a.png", type := .image
        status := .done, convertedPath := some "/tmp/out" } : FileInfo).status = .done ↔
      ({ path := "a.png", name := "a.png", type := .image
         status := .done, convertedPath := some "/tmp/out" } : FileInfo).convertedPath.isSome) :=
  ⟨resultPath_status_amended.1 [.drop ["a.png"], .startConvert, .finishConvert okEngine]
      _ (by decide) (by decide),
    resultPath_status_amended.2 okEngine "PNG" [mkFileInfo "a.png"] (by decide) _ (by decide)⟩

/-! ## Claim C5 -/

/-- The fixed extension→category table the spec describes, one row per
category, in the order the code tests the extension lists. -/
def extensionTable : List (List String × FileCategory) :=
  [(["mp4", "mov", "avi", "mkv", "webm", "ogv", "flv", "wmv", "3gp", "mpg", "vob", "ts", "m2ts"], .video),
   (["png", "jpg", "jpeg", "webp", "gif", "avif", "bmp", "tiff", "ico", "tga", "svg"], .image),
   (["mp3", "wav", "m4a", "ogg", "flac", "aac", "wma", "aiff", "alac", "opus"], .audio)]

/-- Lookup of a (lowercased) extension string in the fixed table; a missed
lookup maps to `unknown`. -/
def lookupExt (ext : String) : FileCategory :=
  match extensionTable.find? (fun entry => entry.1.contains ext) with
  | some entry => entry.2
  | none => .unknown

/-- Modelled from the spec's words ("Pure, total function over the
filename's extension (case-insensitive), using a fixed extension→category
table; unknown/absent extension maps to `unknown`"): a filename without a
dot has no extension and is classified `unknown`; otherwise the field after
the last dot is the extension. -/
def classifySpec (name : String) : FileCategory :=
  if (splitDots name).length ≤ 1 then .unknown
  else lookupExt (lowerStr ((splitDots name).getLastD ""))

/-- C5 counterexample: the filename `"mp3"` has no dot, hence no extension,
so the claim requires category `unknown` — but `getFileType` treats the
whole dotless name as the extension and classifies it `audio`. -/
theorem classifier_dotless_counterexample :
    splitDots "mp3" = ["mp3"] ∧
    classifySpec "mp3" = .unknown ∧
    getFileType "mp3" = .audio := by
  decide

theorem find_table3 (v i a : List String) (e : String) :
    (match ([(v, FileCategory.video), (i, FileCategory.image),
        (a, FileCategory.audio)].find? (fun entry => entry.1.contains e)) with
      | some entry => entry.2
      | none => FileCategory.unknown) =
      if v.contains e then .video
      else if i.contains e then .image
      else if a.contains e then .audio
      else .unknown := by
  cases h1 : decide (e ∈ v) <;> cases h2 : decide (e ∈ i) <;> cases h3 : decide (e ∈ a) <;>
    simp [List.find?, List.contains, List.elem_eq_mem, h1, h2, h3]

/-- C5 (amended): the classifier is a pure total function of the filename:
it lowercases the last dot-separated field — the whole filename when no dot
is present — and looks it up in the fixed extension table, `unknown` on a
missed lookup.  So every dotted filename with an unrecognized extension
maps to `unknown`, but a dotless filename that itself matches a known
extension is classified by that match rather than as `unknown`. -/
theorem classifier_table_amended (name : String) :
    getFileType name = lookupExt (lowerStr ((splitDots name).getLastD "")) := by
  unfold getFileType lookupExt extensionTable
  exact (find_table3 _ _ _ _).symm

/-! ## Claim C4 -/

/-- C4: when files are added to an empty batch, the target format is
auto-selected from the first file's category (image→PNG, audio→MP3,
video/unknown→MP4); adding files to an already non-empty batch never
changes the selected format. -/
theorem addFiles_format_selection :
    (∀ (m : Model) (p : String) (rest : List String), m.files = [] →
        (addFiles m (p :: rest)).format =
          match getFileType (baseName p) with
          | .image => "PNG"
          | .audio => "MP3"
          | _ => "MP4") ∧
    (∀ (m : Model) (paths : List String), m.files ≠ [] →
        (addFiles m paths).format = m.format) := by
  constructor
  · intro m p rest h
    simp [addFiles, h, mkFileInfo]
  · intro m paths h
    cases paths with
    | nil => simp [addFiles]
    | cons p rest =>
        cases hm : m.files with
        | nil => exact absurd hm h
        | cons f fs => simp [addFiles, hm]

theorem addFiles_format_selection_witness :
    ((initModel.files = [] ∧ (addFiles initModel ["song.mp3"]).format = "MP3") ∧
      ((addFiles initModel ["song.mp3"]).files ≠ [] ∧
        (addFiles (addFiles initModel ["song.mp3"]) ["x.png"]).format =
          (addFiles initModel ["song.mp3"]).format)) :=
  ⟨⟨rfl, (addFiles_format_selection.1 initModel "song.mp3" [] rfl).trans (by decide)⟩,
    ⟨by decide, addFiles_format_selection.2 (addFiles initModel ["song.mp3"]) ["x.png"] (by decide)⟩⟩

/-! ## Claim C6 -/

/-- C6: drag-and-drop paths delivered while the session state is
`PROCESSING` change nothing: not the batch, not the format, not the state —
the whole component state is returned untouched. -/
theorem drop_ignored_while_processing (m : Model) (paths : List String)
    (h : m.state = .PROCESSING) :
    step m (.drop paths) = m := by
  simp [step, h]

theorem drop_ignored_while_processing_witness :
    (reachAfter [.drop ["a.png"], .startConvert]).state = .PROCESSING ∧
    step (reachAfter [.drop ["a.png"], .startConvert]) (.drop ["b.mp4", "c.wav"]) =
      reachAfter [.drop ["a.png"], .startConvert] :=
  ⟨by decide, drop_ignored_while_processing _ ["b.mp4", "c.wav"] (by decide)⟩

/-! ## Claim C7 -/

/-- Invariant: the `IDLE` state always carries an empty batch. -/
def IdleEmpty (m : Model) : Prop := m.state = .IDLE → m.files = []

theorem step_idle_empty (m : Model) (e : Event) (h : IdleEmpty m) :
    IdleEmpty (step m e) := by
  cases e with
  | drop paths =>
      cases hs : m.state == .PROCESSING
      · simp only [step, hs, Bool.false_eq_true, if_false]
        cases paths with
        | nil => simpa [addFiles] using h
        | cons p ps =>
            intro hidle
            simp [addFiles] at hidle
      · simp only [step, hs, if_true]
        exact h
  | startConvert =>
      cases hs : (m.state == .SELECTION && !m.files.isEmpty)
      · simp only [step, hs, Bool.false_eq_true, if_false]
        exact h
      · simp only [step, hs, if_true]
        intro hidle
        simp [Model.state] at hidle
  | finishConvert engine =>
      cases hs : m.state == .PROCESSING
      · simp only [step, hs, Bool.false_eq_true, if_false]
        exact h
      · simp only [step, hs, if_true]
        intro hidle
        simp [Model.state] at hidle
  | doReset =>
      cases hs : m.state == .PROCESSING
      · simp only [step, hs, Bool.false_eq_true, if_false]
        intro _
        rfl
      · simp only [step, hs, if_true]
        exact h

theorem foldl_idle_empty (events : List Event) :
    ∀ m : Model, IdleEmpty m → IdleEmpty (events.foldl step m) := by
  induction events with
  | nil => exact fun m h => h
  | cons e es ih => exact fun m h => ih (step m e) (step_idle_empty m e h)

theorem reachAfter_idle_empty (events : List Event) :
    IdleEmpty (reachAfter events) :=
  foldl_idle_empty events initModel (fun _ => rfl)

/-- C7 counterexample: after the batch has reached `FINISHED`, dropping a
new file does not start a fresh batch — the converted file of the previous
batch stays in the list, in front of the new pending one. -/
theorem finished_drop_merges_counterexample :
    (reachAfter [.drop ["a.png"], .startConvert, .finishConvert okEngine]).state = .FINISHED ∧
    (reachAfter [.drop ["a.png"], .startConvert, .finishConvert okEngine,
        .drop ["b.png"]]).files =
      [{ path := "a.png", name := "a.png", type := .image
         status := .done, convertedPath := some "/tmp/out" },
        mkFileInfo "b.png"] ∧
    (reachAfter [.drop ["a.png"], .startConvert, .finishConvert okEngine,
        .drop ["b.png"]]).files ≠ [mkFileInfo "b.png"] := by
  decide

/-- C7 (amended): added files are appended to the existing batch in every
state except `PROCESSING` — including `FINISHED` — so a previous batch is
merged with newly added files whenever it has not been discarded; the batch
is emptied only by explicit reset, and additions made in `IDLE` start from
an (always) empty batch. -/
theorem batch_append_semantics :
    (∀ (m : Model) (paths : List String), m.state ≠ .PROCESSING → paths ≠ [] →
        (step m (.drop paths)).files = m.files ++ paths.map mkFileInfo) ∧
    (∀ events : List Event, (reachAfter events).state = .IDLE →
        (reachAfter events).files = []) ∧
    (∀ m : Model, m.state ≠ .PROCESSING → (step m .doReset).files = []) := by
  refine ⟨?_, ?_, ?_⟩
  · intro m paths hstate hpaths
    have hs : (m.state == AppState.PROCESSING) = false := by
      simpa using hstate
    cases paths with
    | nil => exact absurd rfl hpaths
    | cons p ps => simp [step, hs, addFiles]
  · exact fun events => reachAfter_idle_empty events
  · intro m hstate
    have hs : (m.state == AppState.PROCESSING) = false := by
      simpa using hstate
    simp [step, hs, initModel]

theorem batch_append_semantics_witness :
    (step (reachAfter [.drop ["a.png"], .startConvert, .finishConvert okEngine])
        (.drop ["b.png"])).files =
      (reachAfter [.drop ["a.png"], .startConvert, .finishConvert okEngine]).files ++
        ["b.png"].map mkFileInfo ∧
    (reachAfter [.doReset]).files = [] ∧
    (step (reachAfter [.drop ["a.png"]]) .doReset).files = [] :=
  ⟨batch_append_semantics.1 _ ["b.png"] (by decide) (by decide),
    batch_append_semantics.2.1 [.doReset] (by decide),
    batch_append_semantics.2.2 _ (by decide)⟩

/-! ## Claim C8 -/

/-- C8: after a conversion run, if the elapsed wall-clock time is below
3000 ms the transition to `FINISHED` is scheduled with no added delay,
otherwise with a fixed 500 ms delay; on both paths exactly one `FINISHED`
transition is emitted. -/
theorem finish_pacing (d : Nat) :
    (d < 3000 → finishSchedule d = [(0, .FINISHED)]) ∧
    (3000 ≤ d → finishSchedule d = [(500, .FINISHED)]) ∧
    (finishSchedule d).map Prod.snd = [.FINISHED] := by
  refine ⟨fun h => by simp [finishSchedule, h],
    fun h => by simp [finishSchedule, Nat.not_lt.mpr h], ?_⟩
  unfold finishSchedule
  split <;> simp

theorem finish_pacing_witness :
    finishSchedule 120 = [(0, .FINISHED)] ∧ finishSchedule 4500 = [(500, .FINISHED)] :=
  ⟨(finish_pacing 120).1 (by decide), (finish_pacing 4500).2.1 (by decide)⟩

/-! ## Claim C9 -/

/-- Concatenate fields with dots (left inverse view of `splitDots`). -/
def joinDots : List String → String
  | [] => ""
  | [s] => s
  | s :: rest => s ++ "." ++ joinDots rest

/-- Modelled from the spec's words: the "original stem" the claim
describes — the source filename without its (final) extension, i.e. all
dot-separated fields but the last. -/
def stemSpec (name : String) : String :=
  joinDots (splitDots name).dropLast

/-- The two-file finished batch used against the claimed destination
naming: the first (done) file has a name with two dots, the second
errored. -/
def cxBatch : List FileInfo :=
  [{ path := "/in/a.b.png", name := "a.b.png", type := .image
     status := .done, convertedPath := some "/tmp/x" },
   { path := "/in/c.png", name := "c.png", type := .image
     status := .error, convertedPath := none }]

/-- C9 counterexample: exporting the finished batch `cxBatch` into `/out`
copies exactly the one done artifact (the error file is skipped), but the
destination is `converted_a.mp4` — the stem is the part of the filename
before its FIRST dot — whereas the claim's `converted_<stem-without-
extension>.<ext>` would be `converted_a.b.mp4`. -/
theorem export_stem_counterexample :
    (handleDownload "MP4" cxBatch none (some "/out")).copies =
      [("/tmp/x", "/out/converted_a.mp4")] ∧
    "/out/converted_" ++ stemSpec "a.b.png" ++ "." ++ lowerStr "MP4" =
      "/out/converted_a.b.mp4" ∧
    (handleDownload "MP4" cxBatch none (some "/out")).copies.map Prod.snd ≠
      ["/out/converted_a.b.mp4"] := by
  decide

/-- C9 (amended): export of a finished batch copies exactly the artifacts
of the files with status done; the destination of each copy in directory
mode is `dir/converted_<stem>.<ext>` where `<stem>` is the part of the
original filename before its FIRST dot and `<ext>` the lowercased selected
format; files with status error are silently skipped; cancelling whichever
destination prompt is shown is a silent no-op with no error; and a single
done file is copied to the user-chosen path (single-file eligibility being
gated on the presence of the result path). -/
theorem export_amended :
    (∀ (format : String) (files : List FileInfo) (dir : String) (s : Option String),
        1 < files.length →
        (∀ f ∈ files, f.status = .done → strTruthy f.convertedPath = true) →
        (handleDownload format files s (some dir)).copies =
          (files.filter (fun f => f.status == .done)).map
            (fun f => (f.convertedPath.getD "",
              dir ++ "/converted_" ++ stemFirst f.name ++ "." ++ lowerStr format)) ∧
        (handleDownload format files s (some dir)).error = none) ∧
    (∀ (format : String) (f : FileInfo) (d : Option String),
        (handleDownload format [f] none d).copies = [] ∧
        (handleDownload format [f] none d).error = none) ∧
    (∀ (format : String) (files : List FileInfo) (s : Option String),
        1 < files.length →
        (handleDownload format files s none).copies = [] ∧
        (handleDownload format files s none).error = none) ∧
    (∀ (format : String) (f : FileInfo) (p : String) (d : Option String),
        f.status = .done → strTruthy f.convertedPath = true →
        (handleDownload format [f] (some p) d).copies =
          [(f.convertedPath.getD "", p)] ∧
        (handleDownload format [f] (some p) d).error = none) := by
  refine ⟨?_, ?_, ?_, ?_⟩
  · intro format files dir s hlen hdone
    have h1 : (files.length == 1) = false := by
      simp only [beq_eq_false_iff_ne, ne_eq]
      omega
    have hfil : files.filter (fun f => strTruthy f.convertedPath && (f.status == FileStatus.done)) =
        files.filter (fun f => f.status == FileStatus.done) := by
      refine List.filter_congr ?_
      intro f hf
      cases hst : (f.status == FileStatus.done)
      · simp
      · have hd : f.status = .done := by simpa using hst
        simp [hdone f hf hd]
    constructor <;> simp [handleDownload, h1, hlen, hfil]
  · intro format f d
    cases hs : strTruthy f.convertedPath <;>
      simp [handleDownload, hs]
  · intro format files s hlen
    have h1 : (files.length == 1) = false := by
      simp only [beq_eq_false_iff_ne, ne_eq]
      omega
    constructor <;> simp [handleDownload, h1, hlen]
  · intro format f p d _hdone htruthy
    constructor <;> simp [handleDownload, htruthy]

theorem export_amended_witness :
    ((handleDownload "MP4" cxBatch (some "/z") (some "/out")).copies =
        (cxBatch.filter (fun f => f.status == .done)).map
          (fun f => (f.convertedPath.getD "",
            "/out" ++ "/converted_" ++ stemFirst f.name ++ "." ++ lowerStr "MP4")) ∧
      (handleDownload "MP4" cxBatch (some "/z") (some "/out")).error = none) ∧
    ((handleDownload "MP4" [cxBatch.headD default] none (some "/d")).copies = [] ∧
      (handleDownload "MP4" [cxBatch.headD default] none (some "/d")).error = none) ∧
    ((handleDownload "MP4" cxBatch (some "/z") none).copies = [] ∧
      (handleDownload "MP4" cxBatch (some "/z") none).error = none) ∧
    ((handleDownload "MP4" [cxBatch.headD default] (some "/p/out.mp4") none).copies =
        [((cxBatch.headD default).convertedPath.getD "", "/p/out.mp4")] ∧
      (handleDownload "MP4" [cxBatch.headD default] (some "/p/out.mp4") none).error = none) :=
  ⟨export_amended.1 "MP4" cxBatch "/out" (some "/z") (by decide) (by decide),
    export_amended.2.1 "MP4" (cxBatch.headD default) (some "/d"),
    export_amended.2.2.1 "MP4" cxBatch (some "/z") (by decide),
    export_amended.2.2.2 "MP4" (cxBatch.headD default) "/p/out.mp4" none
      (by decide) (by decide)⟩

/-! ## Claim C10 -/

/-- C10: if the batch contains exactly one file and that file has no
converted-result path, invoking export is a complete silent no-op: no
destination prompt is shown, no copy is invoked, no error is set. -/
theorem single_export_requires_result (format : String) (f : FileInfo)
    (saveChoice dirChoice : Option String) (h : f.convertedPath = none) :
    handleDownload format [f] saveChoice dirChoice =
      { promptedSave := false, promptedDir := false, suggested := none
        copies := [], error := none } := by
  simp [handleDownload, strTruthy, h]

theorem single_export_requires_result_witness :
    (({ path := "/in/a.png", name := "a.png", type := .image
        status := .error, convertedPath := none } : FileInfo).convertedPath = none) ∧
    handleDownload "MP4"
      [{ path := "/in/a.png", name := "a.png", type := .image
         status := .error, convertedPath := none }] (some "/dest/out.mp4") (some "/dest") =
      { promptedSave := false, promptedDir := false, suggested := none
        copies := [], error := none } :=
  ⟨rfl, single_export_requires_result "MP4" _ (some "/dest/out.mp4") (some "/dest") rfl⟩

end Transmute
